import Mathlib

/-!
Shallow embedding of the `process` crate of the forge_view repository
(src/process/src/lib.rs), together with proofs about it.

Modelling conventions, used consistently below:

* Rust `f32` values are modelled as exact rationals (`ℚ`).  Every formula
  under study is an algebraic identity between the computed expressions,
  so exact arithmetic is the faithful reading of those formulas.
* Rust `u32` values (pids) are modelled as `Nat`; `String::parse::<u32>`
  is modelled by the executable decimal parser `parseU32` below.
* `std::collections::HashMap` is modelled as an association list with
  first-match lookup (`lookupA`, `lookupB`) and replace-on-insert
  (`insertA`, `bucketsInsert` appends to the matched entry exactly as
  the `Entry` API of the source does).  Iteration order of a `HashMap`
  is unspecified in Rust; no claim under study depends on it.
* A text file is modelled at the granularity at which the source reads
  it: `/proc/stat` as a list of (label, numeric fields) lines,
  `/proc/meminfo` and `/proc/<pid>/status` as (line text, numeric value)
  pairs or token lists, `/proc/<pid>/stat` as its whitespace-separated
  numeric fields.  `str::contains(pat)` on a line is modelled by
  substring containment on the part of the line the pattern can occur in
  (the patterns used by the source contain no whitespace and no digits,
  so they can only match inside a single non-numeric token).
* Numeric tokens that the source parses with `parse::<f32>()?` are
  modelled pre-parsed wherever the claim under study presupposes numeric
  fields; `get_proc_ppid` (whose claim is precisely about a failing
  parse) keeps the token level and the `Except` error.
* Fallible IO is modelled by an explicit environment (`Env`) recording
  the outcome of each read the source performs, and `Except Unit` for
  `anyhow::Result` (all `anyhow` errors are identified).
* The recursion of `build_process_tree_relations` in the source has no
  termination guard; it is modelled with an explicit fuel parameter.
  All structural theorems below are proved for every fuel value, and
  `build_process_tree` supplies fuel `bucketsSize ppid_map + 1`, which
  reaches the full depth of the hierarchy in every situation in which
  the source recursion terminates at all.
-/

namespace ForgeView

/-- Substring containment, modelling Rust `str::contains` for literal
pattern strings. -/
def strContains (s pat : String) : Bool :=
  decide (pat.toList <:+: s.toList)

/-- Decimal digit value of a character, `none` for a non-digit. -/
def digitVal (c : Char) : Option Nat :=
  if 48 ≤ c.toNat ∧ c.toNat ≤ 57 then some (c.toNat - 48) else none

/-- Accumulating decimal parser over a character list; `none` marks "no
digit seen yet" and any non-digit character fails the whole parse. -/
def parseNatAux : List Char → Option Nat → Option Nat
  | [], acc => acc
  | c :: cs, acc =>
    match digitVal c, acc with
    | some d, some n => parseNatAux cs (some (n * 10 + d))
    | some d, none => parseNatAux cs (some d)
    | none, _ => none

/-- Models `str::parse::<u32>` on the inputs relevant to the claims: a
non-empty all-digit string parses to its decimal value, anything else
(empty string, any non-digit character) fails.  (The source parser also
accepts one leading '+' and rejects values at or above 2^32; neither
behaviour matters for any claim under study.) -/
def parseU32 (s : String) : Option Nat :=
  parseNatAux s.toList none

/-- The `Process` struct of the source (src/process/src/lib.rs). -/
structure Process where
  pid : Nat
  name : String
  cpu_used : ℚ
  mem_used : ℚ
  path : String
  user : String
  ppid : Nat
deriving DecidableEq, Repr

/-- Embeds `Process::new`: the all-default process record. -/
def Process.new : Process :=
  { pid := 0, name := "", cpu_used := 0, mem_used := 0, path := "", user := "", ppid := 0 }

/-- Embeds `get_total_cpu_usage` (lib.rs lines 151-173).  The input is
the line list of `/proc/stat`, each line as label plus pre-parsed
numeric fields.  The source reads the first line only, skips its label
(loop index 0), sums the nine following fields (loop indices 1..9,
missing tokens read as "0"), remembers the field at loop index 4 (the
4th numeric field) as idle, and returns `100 - idle*100/total`.  An
empty file yields 0. -/
def get_total_cpu_usage (stat : List (String × List ℚ)) : ℚ :=
  match stat with
  | [] => 0
  | (_, fields) :: _ =>
    let idle_time := fields.getD 3 0
    let total_cpu_usage : ℚ := ((List.range 9).map (fun i => fields.getD i 0)).sum
    100 - idle_time * 100 / total_cpu_usage

/-- One line of the accumulation loop of `get_total_mem_usage` (lib.rs
lines 179-194): a line whose text contains "MemFree:", "Buffers" or
"Cached" as a substring adds its value to the free amount; a line whose
text contains "MemTotal:" sets the total. -/
def memUsageStep (acc : ℚ × ℚ) (line : String × ℚ) : ℚ × ℚ :=
  let free_mem :=
    if strContains line.1 "MemFree:" || strContains line.1 "Buffers" ||
        strContains line.1 "Cached" then
      acc.1 + line.2
    else
      acc.1
  let total_mem := if strContains line.1 "MemTotal:" then line.2 else acc.2
  (free_mem, total_mem)

/-- Embeds `get_total_mem_usage` (lib.rs lines 175-196).  The input is
the line list of `/proc/meminfo`, each line as its text label and its
pre-parsed numeric value (second token of the line).  The loop body is
`memUsageStep`; the function returns `100 - free*100/total`. -/
def get_total_mem_usage (meminfo : List (String × ℚ)) : ℚ :=
  let ft := meminfo.foldl memUsageStep (0, 0)
  100 - ft.1 * 100 / ft.2

/-- Embeds `get_proc_cpu_usage` (lib.rs lines 40-70).  Inputs: the clock
tick rate (`sysconf(CLK_TCK)`, default 100 if unavailable), the
whitespace-separated numeric fields of `/proc/<pid>/stat` (0-indexed;
missing fields read as "0"), the first number of `/proc/uptime`, and
the line list of `/proc/cpuinfo`.  utime, stime and starttime are the
fields at 0-indexed positions 13, 14 and 21 (1-indexed 14, 15, 22). -/
def get_proc_cpu_usage (system_clock_tick : ℚ) (stat : List ℚ) (system_uptime : ℚ)
    (cpuinfo : List String) : ℚ :=
  let proc_utime := stat.getD 13 0
  let proc_stime := stat.getD 14 0
  let proc_starttime := stat.getD 21 0
  let total_time := proc_utime + proc_stime
  let seconds := system_uptime - proc_starttime / system_clock_tick
  let num_of_cpus : ℚ := (cpuinfo.filter (fun line => strContains line "processor")).length
  100 * ((total_time / system_clock_tick) / seconds) / num_of_cpus

/-- The "scan the lines, take the value of the first line containing
`pat`, keep the initial 0 if none matches" loop shape shared by
`get_proc_mem_usage` for both of its reads. -/
def firstValueContaining (lines : List (String × ℚ)) (pat : String) : ℚ :=
  match lines.find? (fun line => strContains line.1 pat) with
  | some line => line.2
  | none => 0

/-- Embeds `get_proc_mem_usage` (lib.rs lines 72-101).  Inputs: the line
lists of `/proc/<pid>/status` and `/proc/meminfo`, each line as its text
and its pre-parsed numeric value (second token).  rss is taken from the
first line containing "VmRSS:" (0 if none), total memory from the first
line containing "MemTotal:" (0 if none); the division happens only
behind the `total_mem != 0` guard of the source. -/
def get_proc_mem_usage (status : List (String × ℚ)) (meminfo : List (String × ℚ)) : ℚ :=
  let rss : ℚ := firstValueContaining status "VmRSS:"
  let total_mem : ℚ := firstValueContaining meminfo "MemTotal:"
  if total_mem ≠ (0 : ℚ) then rss / total_mem * 100 else 0

/-- Embeds `get_proc_ppid` (lib.rs lines 135-149).  The input is the
line list of `/proc/<pid>/status`, each line as its token list.  The
source takes the first line containing "PPid:", parses its last token
with `parse::<u32>()?` (an empty line yields the empty token), and
propagates a parse failure as an error; if no line matches it returns
the initial value 0. -/
def get_proc_ppid (status : List (List String)) : Except Unit Nat :=
  match status.find? (fun line => line.any (fun tok => strContains tok "PPid:")) with
  | none => Except.ok 0
  | some line =>
    match parseU32 ((line.getLast?).getD "") with
    | some n => Except.ok n
    | none => Except.error ()

/-- Association-list lookup, modelling `HashMap::get` on the snapshot. -/
def lookupA (l : List (Nat × Process)) (k : Nat) : Option Process :=
  (l.find? (fun kv => kv.1 == k)).map (fun kv => kv.2)

/-- Association-list insert, modelling `HashMap::insert` (replace on
duplicate key). -/
def insertA (l : List (Nat × Process)) (k : Nat) (v : Process) : List (Nat × Process) :=
  (k, v) :: l.filter (fun kv => kv.1 ≠ k)

/-- The `System` struct of the source: the pid → `Process` snapshot plus
the two system-wide scalars. -/
structure System where
  procs : List (Nat × Process)
  cpu_used : ℚ
  mem_used : ℚ
deriving DecidableEq

/-- Embeds `System::new`. -/
def System.new : System :=
  { procs := [], cpu_used := 0, mem_used := 0 }

/-- Embeds `System::get_proc_info` (lookup of one pid in the current
snapshot). -/
def System.get_proc_info (s : System) (pid : Nat) : Option Process :=
  lookupA s.procs pid

/-- Embeds `System::get_procs_as_list`: `self.procs.drain().collect()`
returns every (pid, Process) pair of the mapping and leaves the mapping
empty.  The pair returned is (result vector, mutated system). -/
def System.get_procs_as_list (s : System) : List (Nat × Process) × System :=
  (s.procs, { s with procs := [] })

/-- Outcome environment for one refresh cycle: the result of every read
the source performs.  `all_pids` is the directory listing of `/proc`
(`get_all_pids`); `proc_name`, `proc_cpu`, `proc_mem`, `proc_user` and
`proc_ppid` are the outcomes of `get_proc_name`, `get_proc_cpu_usage`,
`get_proc_mem_usage`, `get_proc_user` and `get_proc_ppid` for a given
pid; `proc_path` is `get_proc_path`, which in the source never returns
an error (an unresolvable link yields the empty string); `total_cpu`
and `total_mem` are the outcomes of `get_total_cpu_usage` and
`get_total_mem_usage`. -/
structure Env where
  all_pids : Except Unit (List String)
  proc_name : Nat → Except Unit String
  proc_cpu : Nat → Except Unit ℚ
  proc_mem : Nat → Except Unit ℚ
  proc_path : Nat → String
  proc_user : Nat → Except Unit String
  proc_ppid : Nat → Except Unit Nat
  total_cpu : Except Unit ℚ
  total_mem : Except Unit ℚ

/-- One iteration body of the refresh loop: builds the `Process` record
for `pid` in the field order of the source (name, cpu, mem, path, user,
ppid); each `match` is one `?` of the source, aborting at the first
failing read. -/
def sampleProcess (env : Env) (pid : Nat) : Except Unit Process :=
  match env.proc_name pid with
  | Except.error e => Except.error e
  | Except.ok name =>
    match env.proc_cpu pid with
    | Except.error e => Except.error e
    | Except.ok cpu =>
      match env.proc_mem pid with
      | Except.error e => Except.error e
      | Except.ok mem =>
        match env.proc_user pid with
        | Except.error e => Except.error e
        | Except.ok user =>
          match env.proc_ppid pid with
          | Except.error e => Except.error e
          | Except.ok ppid =>
            Except.ok { pid := pid, name := name, cpu_used := cpu, mem_used := mem,
                        path := env.proc_path pid, user := user, ppid := ppid }

/-- The sampling loop of `refresh_system_info`: processes the pid
strings in order, parsing each with `parse::<u32>()?` and sampling it;
the first failure aborts, leaving the partially filled mapping. -/
def refreshLoop (env : Env) :
    List String → List (Nat × Process) → Except Unit Unit × List (Nat × Process)
  | [], procs => (Except.ok (), procs)
  | pid_str :: rest, procs =>
    match parseU32 pid_str with
    | none => (Except.error (), procs)
    | some pid =>
      match sampleProcess env pid with
      | Except.error e => (Except.error e, procs)
      | Except.ok p => refreshLoop env rest (insertA procs pid p)

/-- Embeds `System::refresh_system_info` (lib.rs lines 330-348).  The
mapping is cleared first (`self.procs.clear()`), then every enumerated
pid is sampled and inserted, then the two scalars are computed.  Every
`?` of the source is an early return that leaves `self` in its current
partially mutated state; the function returns (result, final system). -/
def refresh_system_info (env : Env) (s : System) : Except Unit Unit × System :=
  let s0 : System := { s with procs := [] }
  match env.all_pids with
  | Except.error e => (Except.error e, s0)
  | Except.ok pid_str_list =>
    match refreshLoop env pid_str_list [] with
    | (Except.error e, procs) => (Except.error e, { s0 with procs := procs })
    | (Except.ok _, procs) =>
      match env.total_cpu with
      | Except.error e => (Except.error e, { s0 with procs := procs })
      | Except.ok c =>
        match env.total_mem with
        | Except.error e => (Except.error e, { s0 with procs := procs, cpu_used := c })
        | Except.ok m => (Except.ok (), { procs := procs, cpu_used := c, mem_used := m })

/-- The `ProcessTreeNode` struct of the source: a `Process` plus its
child nodes. -/
inductive ProcessTreeNode : Type where
  | mk : Process → List ProcessTreeNode → ProcessTreeNode

/-- The `proc_info` field of a tree node. -/
def ProcessTreeNode.proc_info : ProcessTreeNode → Process
  | .mk p _ => p

/-- The `children` field of a tree node. -/
def ProcessTreeNode.children : ProcessTreeNode → List ProcessTreeNode
  | .mk _ c => c

/-- Embeds `ProcessTreeNode::new`: a node with the given process record
and no children. -/
def ProcessTreeNode.new (p : Process) : ProcessTreeNode :=
  ProcessTreeNode.mk p []

/-- The `ProcessTree` struct of the source. -/
structure ProcessTree where
  root : ProcessTreeNode

/-- The synthetic root process that `build_process_tree` installs at the
root of every tree (pid 0, name "System Hierarchy"). -/
def rootProcess : Process :=
  { pid := 0, name := "System Hierarchy", cpu_used := 0, mem_used := 0,
    path := "", user := "", ppid := 0 }

/-- Association-list lookup for the parent-pid → children-pids multimap,
modelling `HashMap::get` on `ppid_map`. -/
def lookupB (m : List (Nat × List Nat)) (k : Nat) : Option (List Nat) :=
  (m.find? (fun kv => kv.1 == k)).map (fun kv => kv.2)

/-- Embeds the `ppid_map.entry(...)` match of `build_process_tree_data`:
push `pid` onto the existing bucket of key `k`, or create the bucket
`[pid]` if the key is vacant. -/
def bucketsInsert (m : List (Nat × List Nat)) (k : Nat) (pid : Nat) :
    List (Nat × List Nat) :=
  if (m.find? (fun kv => kv.1 == k)).isSome then
    m.map (fun kv => if kv.1 == k then (kv.1, kv.2 ++ [pid]) else kv)
  else
    m ++ [(k, [pid])]

/-- One iteration of the map-building loop of `build_process_tree_data`
(lib.rs lines 249-262): parse the enumerated pid string (skipping
unparsable names), look it up in the snapshot (skipping absentees), and
push the pid onto the bucket keyed by the ppid recorded in its snapshot
entry. -/
def ppidMapStep (procs : List (Nat × Process)) (m : List (Nat × List Nat))
    (pid_str : String) : List (Nat × List Nat) :=
  match parseU32 pid_str with
  | none => m
  | some pid =>
    match lookupA procs pid with
    | none => m
    | some value => bucketsInsert m value.ppid pid

/-- Embeds the map-building loop of `build_process_tree_data` (lib.rs
lines 246-263): fold `ppidMapStep` over the enumerated pid strings,
starting from the empty multimap. -/
def build_ppid_map (procs : List (Nat × Process)) (pids_str_list : List String) :
    List (Nat × List Nat) :=
  pids_str_list.foldl (ppidMapStep procs) []

/-- Embeds `build_process_tree_relations` (lib.rs lines 266-280): the
children of the current node are the bucket of its pid; each child pid
is materialised from the snapshot and recursively expanded.  The source
recursion has no termination guard, hence the explicit fuel; fuel 0
returns the node unexpanded.  (`procs[child_pid]` in the source indexes
a key that is present by construction of the map; `getD Process.new`
realises that same total lookup.) -/
def build_process_tree_relations (procs : List (Nat × Process))
    (ppid_map : List (Nat × List Nat)) : Nat → ProcessTreeNode → ProcessTreeNode
  | 0, node => node
  | fuel + 1, node =>
    match lookupB ppid_map node.proc_info.pid with
    | none => node
    | some children =>
      ProcessTreeNode.mk node.proc_info
        (node.children ++ children.map (fun child_pid =>
          build_process_tree_relations procs ppid_map fuel
            (ProcessTreeNode.new ((lookupA procs child_pid).getD Process.new))))

/-- Total number of pids stored across all buckets of the multimap;
`bucketsSize m + 1` bounds the depth of the hierarchy whenever the
source recursion terminates, so it is a sufficient fuel. -/
def bucketsSize (m : List (Nat × List Nat)) : Nat :=
  (m.map (fun kv => kv.2.length)).sum

/-- Embeds `build_process_tree` (lib.rs lines 229-244) together with
`build_process_tree_data`: starting from a root node holding the
synthetic root process, attach the whole hierarchy.  `live_pids` is the
pid enumeration that `build_process_tree_data` obtains from
`get_all_pids()` (empty on an enumeration error, via
`unwrap_or_default`). -/
def build_process_tree (s : System) (live_pids : List String) : ProcessTree :=
  let ppid_map := build_ppid_map s.procs live_pids
  { root := build_process_tree_relations s.procs ppid_map (bucketsSize ppid_map + 1)
      (ProcessTreeNode.new rootProcess) }

mutual
/-- All pids stored in a tree, in preorder. -/
def collectPids : ProcessTreeNode → List Nat
  | .mk p children => p.pid :: collectPidsList children

/-- All pids stored in a forest, in preorder. -/
def collectPidsList : List ProcessTreeNode → List Nat
  | [] => []
  | t :: ts => collectPids t ++ collectPidsList ts
end

mutual
/-- Checks that every parent-child edge of the tree links a parent to a
child whose recorded ppid is the parent's pid. -/
def edgesOk : ProcessTreeNode → Bool
  | .mk p children => edgesOkList p.pid children

/-- Edge check for a forest hanging below a parent of pid `parentPid`. -/
def edgesOkList : Nat → List ProcessTreeNode → Bool
  | _, [] => true
  | parentPid, t :: ts =>
    (t.proc_info.ppid == parentPid) && edgesOk t && edgesOkList parentPid ts
end

mutual
/-- The pids occurring as the child end of some edge of the tree (every
node except the root, counted once per occurrence). -/
def edgesSnd : ProcessTreeNode → List Nat
  | .mk _ children => edgesSndList children

/-- Child-end pids of all edges of a forest, including the forest roots
themselves (each forest root is the child end of the edge to its
parent). -/
def edgesSndList : List ProcessTreeNode → List Nat
  | [] => []
  | t :: ts => t.proc_info.pid :: (edgesSnd t ++ edgesSndList ts)
end

/-- The parent function induced by a snapshot: the ppid recorded for key
`c`, read through the same total lookup the tree builder uses. -/
def parF (procs : List (Nat × Process)) (c : Nat) : Nat :=
  ((lookupA procs c).getD Process.new).ppid

/-- The node the tree builder materialises for the snapshot key `c`. -/
def childNode (procs : List (Nat × Process)) (c : Nat) : ProcessTreeNode :=
  ProcessTreeNode.new ((lookupA procs c).getD Process.new)

/-- Bucket contents of the multimap, empty list for a vacant key. -/
def bucketGetD (m : List (Nat × List Nat)) (k : Nat) : List Nat :=
  (lookupB m k).getD []

/-- The filter the map-building loop applies to one enumerated pid
string: its parsed value, provided it parses and is a key of the
snapshot. -/
def procFilter (procs : List (Nat × Process)) (s : String) : Option Nat :=
  match parseU32 s with
  | none => none
  | some p => if (lookupA procs p).isSome then some p else none

/-- The pids the map-building loop actually processes, in order. -/
def procList (procs : List (Nat × Process)) (enum : List String) : List Nat :=
  enum.filterMap (procFilter procs)

/-- Decidable form of the snapshot invariant "every stored Process's pid
field equals its mapping key" (spec §8). -/
def keysMatchB (l : List (Nat × Process)) : Bool :=
  l.all (fun kv => kv.2.pid == kv.1)

/-- A snapshot entry with the given pid and ppid and default other
fields, for the concrete examples below. -/
def procOf (pid ppid : Nat) : Process :=
  { pid := pid, name := "", cpu_used := 0, mem_used := 0, path := "",
    user := "", ppid := ppid }

/-- The snapshot of the spec's tree example (§8): pids 1..4 with parent
pids 0, 1, 1, 99, where 99 is absent. -/
def procs4 : List (Nat × Process) :=
  [(1, procOf 1 0), (2, procOf 2 1), (3, procOf 3 1), (4, procOf 4 99)]

/-- The live-pid enumeration of the tree example. -/
def enum4 : List String := ["1", "2", "3", "4"]

/-- A `System` holding the example snapshot. -/
def sys4 : System := { procs := procs4, cpu_used := 0, mem_used := 0 }

/-- A prior-snapshot `System` with one process (pid 5), used to examine
what a failed refresh leaves behind. -/
def sys0 : System :=
  { procs := [(5, procOf 5 1)], cpu_used := 3, mem_used := 4 }

/-- A refresh environment that enumerates the single pid 7 and then
fails on its very first per-pid read. -/
def envFail : Env :=
  { all_pids := Except.ok ["7"]
    proc_name := fun _ => Except.error ()
    proc_cpu := fun _ => Except.error ()
    proc_mem := fun _ => Except.error ()
    proc_path := fun _ => ""
    proc_user := fun _ => Except.error ()
    proc_ppid := fun _ => Except.error ()
    total_cpu := Except.error ()
    total_mem := Except.error () }

/-- A refresh environment in which every read of the single pid 7
succeeds. -/
def envOK : Env :=
  { all_pids := Except.ok ["7"]
    proc_name := fun _ => Except.ok "seven"
    proc_cpu := fun _ => Except.ok 1
    proc_mem := fun _ => Except.ok 2
    proc_path := fun _ => "/bin/seven"
    proc_user := fun _ => Except.ok "root"
    proc_ppid := fun _ => Except.ok 1
    total_cpu := Except.ok 10
    total_mem := Except.ok 20 }

/-- The process record that a successful refresh under `envOK` stores
for pid 7. -/
def procW : Process :=
  { pid := 7, name := "seven", cpu_used := 1, mem_used := 2,
    path := "/bin/seven", user := "root", ppid := 1 }

/-- Supporting lemma: if any pid string of the list parses and its pid
fails to sample, the refresh loop over that list ends in an error (the
failure of an earlier element is also an error, so the loop result is
an error either way). -/
theorem refreshLoop_error_of_mem (env : Env) :
    ∀ (l : List String) (acc : List (Nat × Process)) (pid_str : String) (pid : Nat),
      pid_str ∈ l → parseU32 pid_str = some pid →
      sampleProcess env pid = Except.error () →
      (refreshLoop env l acc).1 = Except.error () := by
  intro l
  induction l with
  | nil => intro acc p n h; cases h
  | cons a rest ih =>
    intro acc pid_str pid hmem hparse hsample
    cases hmem with
    | head =>
      simp only [refreshLoop, hparse, hsample]
    | tail b hmem =>
      simp only [refreshLoop]
      rcases hp : parseU32 a with _ | q
      · simp only [hp]
      · simp only [hp]
        rcases hs : sampleProcess env q with e | p
        · simp only [hs]
        · simp only [hs]
          exact ih _ pid_str pid hmem hparse hsample

/-- Supporting lemma: a successfully sampled process record carries the
pid it was sampled for. -/
theorem sampleProcess_pid (env : Env) (pid : Nat) (p : Process)
    (h : sampleProcess env pid = Except.ok p) : p.pid = pid := by
  unfold sampleProcess at h
  rcases h1 : env.proc_name pid with e | name <;> rw [h1] at h
  · cases h
  · rcases h2 : env.proc_cpu pid with e | cpu <;> rw [h2] at h
    · cases h
    · rcases h3 : env.proc_mem pid with e | mem <;> rw [h3] at h
      · cases h
      · rcases h4 : env.proc_user pid with e | user <;> rw [h4] at h
        · cases h
        · rcases h5 : env.proc_ppid pid with e | pp <;> rw [h5] at h
          · cases h
          · cases h; rfl

/-- Supporting lemma: inserting a record whose pid field equals its key
preserves the key invariant. -/
theorem keysMatchB_insertA (l : List (Nat × Process)) (k : Nat) (v : Process)
    (hl : keysMatchB l = true) (hv : v.pid = k) : keysMatchB (insertA l k v) = true := by
  simp only [keysMatchB, insertA, List.all_eq_true, beq_iff_eq] at *
  rintro ⟨k', v'⟩ hmem
  rcases List.mem_cons.mp hmem with h | h
  · cases h; exact hv
  · exact hl _ (List.mem_of_mem_filter h)

/-- Supporting lemma: the refresh loop preserves the key invariant of
the accumulated mapping. -/
theorem refreshLoop_keysMatch (env : Env) :
    ∀ (l : List String) (acc : List (Nat × Process)),
      keysMatchB acc = true → keysMatchB (refreshLoop env l acc).2 = true := by
  intro l
  induction l with
  | nil => intro acc h; exact h
  | cons a rest ih =>
    intro acc h
    simp only [refreshLoop]
    rcases hp : parseU32 a with _ | pid
    · simp only [hp]; exact h
    · simp only [hp]
      rcases hs : sampleProcess env pid with e | p
      · simp only [hs]; exact h
      · simp only [hs]
        exact ih _ (keysMatchB_insertA _ _ _ h (sampleProcess_pid env pid p hs))

/-- C1: for every system CPU counter line consisting of a label followed
by nine numeric fields, `get_total_cpu_usage` returns
`100 - idle / sum_of_first_9_fields * 100` where idle is the 4th of the
nine fields; in particular, for fields [100,0,50,800,0,0,0,0,0] it
returns `100 - 800/950*100`. -/
theorem C1_total_cpu_usage_formula (label : String)
    (f1 f2 f3 f4 f5 f6 f7 f8 f9 : ℚ) (rest : List (String × List ℚ)) :
    get_total_cpu_usage ((label, [f1, f2, f3, f4, f5, f6, f7, f8, f9]) :: rest)
      = 100 - f4 / (f1 + f2 + f3 + f4 + f5 + f6 + f7 + f8 + f9) * 100
    ∧ get_total_cpu_usage [("cpu", [100, 0, 50, 800, 0, 0, 0, 0, 0])]
      = 100 - 800 / 950 * 100 := by
  constructor
  · have h : get_total_cpu_usage ((label, [f1, f2, f3, f4, f5, f6, f7, f8, f9]) :: rest)
        = 100 - f4 * 100 /
            (f1 + (f2 + (f3 + (f4 + (f5 + (f6 + (f7 + (f8 + (f9 + 0))))))))) := rfl
    rw [h]; ring
  · have h : get_total_cpu_usage [("cpu", [100, 0, 50, 800, 0, 0, 0, 0, 0])]
        = 100 - 800 * 100 /
            ((100 : ℚ) + (0 + (50 + (800 + (0 + (0 + (0 + (0 + (0 + 0))))))))) := rfl
    rw [h]; norm_num

/-- C2 counterexample: a system memory counter input that contains lines
labeled MemTotal, MemFree, Buffers and Cached (plus the SwapCached line
that every real counter file also carries) does not yield
`100 - (MemFree+Buffers+Cached)/MemTotal*100`: the substring match
`contains("Cached")` of the source also sweeps the SwapCached line into
the free sum. -/
theorem C2_total_mem_usage_counterexample :
    get_total_mem_usage
        [("MemTotal:", 1000), ("MemFree:", 200), ("Buffers:", 50),
         ("Cached:", 50), ("SwapCached:", 25)]
      ≠ 100 - (200 + 50 + 50) / 1000 * 100
    ∧ get_total_mem_usage
        [("MemTotal:", 1000), ("MemFree:", 200), ("Buffers:", 50),
         ("Cached:", 50), ("SwapCached:", 25)]
      = 100 - (200 + 50 + 50 + 25) / 1000 * 100 := by
  have h : get_total_mem_usage
      [("MemTotal:", 1000), ("MemFree:", 200), ("Buffers:", 50),
       ("Cached:", 50), ("SwapCached:", 25)]
      = 100 - ((((0 : ℚ) + 200) + 50) + 50 + 25) * 100 / 1000 := rfl
  constructor
  · rw [h]; norm_num
  · rw [h]; norm_num

/-- Last-value reading of a consed list, with default. -/
theorem getD_getLast?_cons {α : Type} (a : α) (xs : List α) (d : α) :
    ((a :: xs).getLast?).getD d = (xs.getLast?).getD a := by
  cases xs with
  | nil => rfl
  | cons b ys =>
    rw [List.getLast?_cons_cons]
    rcases h : (b :: ys).getLast? with _ | x
    · exact absurd h (by simp)
    · rfl

/-- Characterisation of the meminfo accumulation loop: over any line
list, the free amount ends as the initial amount plus the sum of the
values of all lines matching the free substrings, and the total ends as
the value of the last line matching "MemTotal:" (or the initial total
if none matches). -/
theorem memUsageStep_foldl :
    ∀ (lines : List (String × ℚ)) (acc : ℚ × ℚ),
      lines.foldl memUsageStep acc
        = (acc.1 + ((lines.filter (fun line => strContains line.1 "MemFree:" ||
              strContains line.1 "Buffers" || strContains line.1 "Cached")).map Prod.snd).sum,
           (((lines.filter (fun line => strContains line.1 "MemTotal:")).map
              Prod.snd).getLast?).getD acc.2) := by
  intro lines
  induction lines with
  | nil => intro acc; simp
  | cons l rest ih =>
    intro acc
    rw [List.foldl_cons, ih, List.filter_cons, List.filter_cons]
    have hstep1 : (memUsageStep acc l).1
        = if (strContains l.1 "MemFree:" || strContains l.1 "Buffers" ||
            strContains l.1 "Cached") = true then acc.1 + l.2 else acc.1 := rfl
    have hstep2 : (memUsageStep acc l).2
        = if (strContains l.1 "MemTotal:") = true then l.2 else acc.2 := rfl
    rw [hstep1, hstep2]
    by_cases hf : (strContains l.1 "MemFree:" || strContains l.1 "Buffers" ||
        strContains l.1 "Cached") = true
    · by_cases ht : (strContains l.1 "MemTotal:") = true
      · simp [hf, ht, getD_getLast?_cons]
        ring
      · simp [hf, ht]
        ring
    · by_cases ht : (strContains l.1 "MemTotal:") = true
      · simp [hf, ht, getD_getLast?_cons]
      · simp [hf, ht]

/-- C2 (amended): for every system memory counter input in which the
lines matching the free substrings ("MemFree:", "Buffers", "Cached")
are exactly the MemFree, Buffers and Cached lines with values f, b, c
(in any order, any further non-matching lines allowed), and the only
line matching "MemTotal:" is the MemTotal line with value t,
`get_total_mem_usage` returns `100 - (f+b+c)/t*100`; in particular,
MemTotal=1000, MemFree=200, Buffers=50, Cached=50 yields 70. -/
theorem C2_total_mem_usage_formula (meminfo : List (String × ℚ)) (t f b c : ℚ)
    (hfree : ((meminfo.filter (fun line => strContains line.1 "MemFree:" ||
        strContains line.1 "Buffers" || strContains line.1 "Cached")).map Prod.snd).Perm
        [f, b, c])
    (htot : (meminfo.filter (fun line => strContains line.1 "MemTotal:")).map Prod.snd
        = [t]) :
    get_total_mem_usage meminfo = 100 - (f + b + c) / t * 100
    ∧ get_total_mem_usage
        [("MemTotal:", 1000), ("MemFree:", 200), ("Buffers:", 50), ("Cached:", 50)]
      = 70 := by
  constructor
  · have hdef : get_total_mem_usage meminfo
        = 100 - (meminfo.foldl memUsageStep (0, 0)).1 * 100
            / (meminfo.foldl memUsageStep (0, 0)).2 := rfl
    rw [hdef, memUsageStep_foldl meminfo (0, 0)]
    have hsum : ((meminfo.filter (fun line => strContains line.1 "MemFree:" ||
        strContains line.1 "Buffers" || strContains line.1 "Cached")).map Prod.snd).sum
        = f + b + c := by
      rw [hfree.sum_eq]
      simp
      ring
    rw [hsum, htot]
    simp
    ring
  · have h : get_total_mem_usage
        [("MemTotal:", 1000), ("MemFree:", 200), ("Buffers:", 50), ("Cached:", 50)]
        = 100 - ((((0 : ℚ) + 200) + 50) + 50) * 100 / 1000 := rfl
    rw [h]; norm_num

/-- C2 witness: the amended theorem applied to a five-line input — the
four labeled lines plus an unmatched Shmem line. -/
theorem C2_total_mem_usage_witness :
    get_total_mem_usage
        [("MemTotal:", 1000), ("MemFree:", 200), ("Buffers:", 50),
         ("Cached:", 50), ("Shmem:", 7)]
      = 100 - (200 + 50 + 50) / 1000 * 100 := by
  have hfree : ((([("MemTotal:", (1000 : ℚ)), ("MemFree:", 200), ("Buffers:", 50),
      ("Cached:", 50), ("Shmem:", 7)]).filter
        (fun line => strContains line.1 "MemFree:" || strContains line.1 "Buffers" ||
          strContains line.1 "Cached")).map Prod.snd).Perm [200, 50, 50] := by
    have h : (([("MemTotal:", (1000 : ℚ)), ("MemFree:", 200), ("Buffers:", 50),
        ("Cached:", 50), ("Shmem:", 7)]).filter
          (fun line => strContains line.1 "MemFree:" || strContains line.1 "Buffers" ||
            strContains line.1 "Cached")).map Prod.snd = [(200 : ℚ), 50, 50] := rfl
    rw [h]
  exact (C2_total_mem_usage_formula _ 1000 200 50 50 hfree rfl).1

/-- C3: for a stat record of 22 parsed numeric fields,
`get_proc_cpu_usage` returns
`100 * ((utime+stime)/ticks) / (uptime - starttime/ticks) / cpu_count`
where utime, stime, starttime are the fields at 1-indexed positions 14,
15 and 22 (0-indexed 13, 14 and 21).  The function is a pure function
of the current counters alone — a lifetime average since process start,
with no state from any earlier refresh. -/
theorem C3_proc_cpu_usage_formula (clk uptime : ℚ) (cpuinfo : List String)
    (b0 b1 b2 b3 b4 b5 b6 b7 b8 b9 b10 b11 b12 u s b15 b16 b17 b18 b19 b20 st : ℚ) :
    get_proc_cpu_usage clk
      [b0, b1, b2, b3, b4, b5, b6, b7, b8, b9, b10, b11, b12, u, s,
       b15, b16, b17, b18, b19, b20, st] uptime cpuinfo
      = 100 * ((u + s) / clk) / (uptime - st / clk)
          / ((cpuinfo.filter (fun line => strContains line "processor")).length : ℚ) := by
  have h : get_proc_cpu_usage clk
      [b0, b1, b2, b3, b4, b5, b6, b7, b8, b9, b10, b11, b12, u, s,
       b15, b16, b17, b18, b19, b20, st] uptime cpuinfo
      = 100 * ((u + s) / clk / (uptime - st / clk))
          / ((cpuinfo.filter (fun line => strContains line "processor")).length : ℚ) := rfl
  rw [h]; ring

/-- C4 counterexample: under `envFail` (pid 7 enumerated, its first read
failing) starting from the snapshot `sys0` (which holds pid 5), the
refresh fails, yet the mapping is NOT the prior snapshot: it has been
cleared, pid 5 is no longer observable. -/
theorem C4_refresh_failure_counterexample :
    (refresh_system_info envFail sys0).1 = Except.error ()
    ∧ (refresh_system_info envFail sys0).2.procs = []
    ∧ System.get_proc_info (refresh_system_info envFail sys0).2 5 = none
    ∧ System.get_proc_info sys0 5 = some (procOf 5 1) :=
  ⟨rfl, rfl, rfl, rfl⟩

/-- C4 (amended): one pid's sampling failure (indeed any parse or
sampling failure of any enumerated pid) aborts the whole refresh with
an error, but the caller does NOT retain the prior snapshot: the
mapping is cleared before sampling, so the mapping after a refresh
(failed or not) is the same whatever snapshot the call started from —
it contains exactly the pids sampled successfully during this call. -/
theorem C4_refresh_failure_behavior (env : Env) (s s' : System) :
    ((refresh_system_info env s).2.procs = (refresh_system_info env s').2.procs
      ∧ (refresh_system_info env s).1 = (refresh_system_info env s').1)
    ∧ (∀ (pid_list : List String) (pid_str : String) (pid : Nat),
        env.all_pids = Except.ok pid_list → pid_str ∈ pid_list →
        parseU32 pid_str = some pid → sampleProcess env pid = Except.error () →
        (refresh_system_info env s).1 = Except.error ()) := by
  constructor
  · rcases henv : env.all_pids with e | l <;> simp only [refresh_system_info, henv]
    · refine ⟨?_, ?_⟩ <;> trivial
    · rcases hl : refreshLoop env l [] with ⟨r, procs⟩
      rcases r with e | u
      · simp only [hl]
        refine ⟨?_, ?_⟩ <;> trivial
      · rcases hc : env.total_cpu with e | c
        · simp only [hl, hc]
          refine ⟨?_, ?_⟩ <;> trivial
        · rcases hm : env.total_mem with e | m <;> simp only [hl, hc, hm] <;>
            refine ⟨?_, ?_⟩ <;> trivial
  · intro pid_list pid_str pid hpids hmem hparse hsample
    have herr := refreshLoop_error_of_mem env pid_list [] pid_str pid hmem hparse hsample
    simp only [refresh_system_info, hpids]
    rcases hl : refreshLoop env pid_list [] with ⟨r, procs⟩
    rw [hl] at herr
    rcases r with e | u
    · cases e
      simp only [hl]
    · simp at herr

/-- C4 witness: the amended theorem applied to the concrete failing
environment. -/
theorem C4_refresh_failure_witness :
    (refresh_system_info envFail sys0).1 = Except.error () :=
  (C4_refresh_failure_behavior envFail sys0 sys0).2 ["7"] "7" 7 rfl
    (List.Mem.head _) rfl rfl

/-- C5 counterexample: a status record whose PPid line carries a
non-numeric token makes `get_proc_ppid` return a hard error, not the
default 0 the claim asserts. -/
theorem C5_ppid_parse_counterexample :
    get_proc_ppid [["PPid:", "abc"]] = Except.error ()
    ∧ get_proc_ppid [["PPid:", "abc"]] ≠ Except.ok 0 :=
  ⟨rfl, fun h => Except.noConfusion h⟩

/-- C5 (amended): `get_proc_ppid` returns 0 exactly when no status line
contains the PPid marker; if the first PPid line is found, a last token
that fails to parse is a hard error, and one that parses is returned. -/
theorem C5_ppid_parse_behavior (status : List (List String)) :
    (status.find? (fun line => line.any (fun tok => strContains tok "PPid:")) = none →
      get_proc_ppid status = Except.ok 0)
    ∧ (∀ line,
        status.find? (fun line => line.any (fun tok => strContains tok "PPid:")) = some line →
        parseU32 ((line.getLast?).getD "") = none →
        get_proc_ppid status = Except.error ())
    ∧ (∀ line n,
        status.find? (fun line => line.any (fun tok => strContains tok "PPid:")) = some line →
        parseU32 ((line.getLast?).getD "") = some n →
        get_proc_ppid status = Except.ok n) := by
  refine ⟨fun h => ?_, fun line h hp => ?_, fun line n h hp => ?_⟩
  · simp [get_proc_ppid, h]
  · simp [get_proc_ppid, h, hp]
  · simp [get_proc_ppid, h, hp]

/-- C5 witness: the amended theorem applied to a concrete status record
with a parsable PPid token. -/
theorem C5_ppid_parse_witness :
    get_proc_ppid [["PPid:", "42"]] = Except.ok 42 :=
  (C5_ppid_parse_behavior [["PPid:", "42"]]).2.2 ["PPid:", "42"] 42 rfl rfl

/-- C8: `get_procs_as_list` returns exactly the (pid, Process) pairs of
the current mapping and empties the live snapshot — afterwards
`get_proc_info` returns nothing for every pid — while the two
system-wide scalars are unchanged. -/
theorem C8_procs_as_list_drains (s : System) :
    (s.get_procs_as_list).1 = s.procs
    ∧ (∀ pid, ((s.get_procs_as_list).2).get_proc_info pid = none)
    ∧ (s.get_procs_as_list).2.cpu_used = s.cpu_used
    ∧ (s.get_procs_as_list).2.mem_used = s.mem_used :=
  ⟨rfl, fun _ => rfl, rfl, rfl⟩

/-- C9: every Process stored in the mapping has its pid field equal to
its mapping key — after construction, after every refresh (successful
or failed, from any prior state), and after the draining read (the only
other operations on a `System` do not produce a new state). -/
theorem C9_pid_matches_key :
    keysMatchB System.new.procs = true
    ∧ (∀ env s, keysMatchB (refresh_system_info env s).2.procs = true)
    ∧ (∀ s, keysMatchB ((System.get_procs_as_list s).2).procs = true) := by
  refine ⟨rfl, fun env s => ?_, fun s => rfl⟩
  rcases henv : env.all_pids with e | l <;> simp only [refresh_system_info, henv]
  · rfl
  · rcases hl : refreshLoop env l [] with ⟨r, procs⟩
    have hk : keysMatchB procs = true := by
      have h2 := refreshLoop_keysMatch env l [] rfl
      rw [hl] at h2; exact h2
    rcases r with e | u
    · simp only [hl]; exact hk
    · rcases hc : env.total_cpu with e | c
      · simp only [hl, hc]; exact hk
      · rcases hm : env.total_mem with e | m <;> simp only [hl, hc, hm] <;> exact hk

/-- C10: if no system memory counter line contains the MemTotal marker,
or the MemTotal value is 0, `get_proc_mem_usage` returns 0 without
performing the rss/total division — the division sits behind the
`total_mem != 0` guard. -/
theorem C10_mem_usage_zero_guard (status meminfo : List (String × ℚ)) :
    (meminfo.find? (fun line => strContains line.1 "MemTotal:") = none →
      get_proc_mem_usage status meminfo = 0)
    ∧ (∀ line, meminfo.find? (fun line => strContains line.1 "MemTotal:") = some line →
        line.2 = 0 → get_proc_mem_usage status meminfo = 0) := by
  constructor
  · intro h
    simp [get_proc_mem_usage, firstValueContaining, h]
  · intro line h hz
    simp [get_proc_mem_usage, firstValueContaining, h, hz]

/-- C10 witness: the zero-MemTotal branch of the guard on a concrete
input. -/
theorem C10_mem_usage_zero_guard_witness :
    get_proc_mem_usage [("VmRSS:", 10)] [("MemTotal:", 0)] = 0 :=
  (C10_mem_usage_zero_guard [("VmRSS:", 10)] [("MemTotal:", 0)]).2 ("MemTotal:", 0) rfl rfl

/-- Head step of multimap lookup. -/
theorem lookupB_cons (a : Nat) (v : List Nat) (m : List (Nat × List Nat)) (k : Nat) :
    lookupB ((a, v) :: m) k = if (a == k) = true then some v else lookupB m k := by
  by_cases h : (a == k) = true
  · simp [lookupB, h]
  · simp [lookupB, h]

/-- Head step of bucket reading. -/
theorem bucketGetD_cons (a : Nat) (v : List Nat) (m : List (Nat × List Nat)) (k : Nat) :
    bucketGetD ((a, v) :: m) k = if (a == k) = true then v else bucketGetD m k := by
  rw [bucketGetD, lookupB_cons]
  by_cases h : (a == k) = true
  · simp [h]
  · simp [h, bucketGetD]

/-- Pushing onto the bucket of key `k'` leaves every other bucket
unchanged (occupied-key branch of `bucketsInsert`). -/
theorem bucketGetD_map_ne (k k' pid : Nat) (m : List (Nat × List Nat)) (hne : k ≠ k') :
    bucketGetD (m.map (fun kv => if kv.1 == k' then (kv.1, kv.2 ++ [pid]) else kv)) k
      = bucketGetD m k := by
  induction m with
  | nil => rfl
  | cons hd tl ih =>
    rcases hd with ⟨a, v⟩
    simp only [List.map_cons]
    by_cases ha : (a == k') = true
    · rw [if_pos ha]
      have hak : (a == k) = false := by
        have ha' : a = k' := by simpa using ha
        simp [ha', Ne.symm hne]
      rw [bucketGetD_cons, bucketGetD_cons]
      simp only [hak]
      simpa using ih
    · rw [if_neg ha]
      rw [bucketGetD_cons, bucketGetD_cons]
      by_cases hak : (a == k) = true
      · simp only [hak, if_pos]
      · simp only [hak]
        simpa using ih

/-- Pushing onto the occupied bucket of key `k'` appends the pid to it. -/
theorem bucketGetD_map_eq (k' pid : Nat) (m : List (Nat × List Nat))
    (h : (m.find? (fun kv => kv.1 == k')).isSome = true) :
    bucketGetD (m.map (fun kv => if kv.1 == k' then (kv.1, kv.2 ++ [pid]) else kv)) k'
      = bucketGetD m k' ++ [pid] := by
  induction m with
  | nil => simp at h
  | cons hd tl ih =>
    rcases hd with ⟨a, v⟩
    simp only [List.map_cons]
    by_cases ha : (a == k') = true
    · rw [if_pos ha, bucketGetD_cons, bucketGetD_cons]
      simp only [ha]
      simp
    · rw [if_neg ha, bucketGetD_cons, bucketGetD_cons]
      simp only [ha]
      have htl : (tl.find? (fun kv => kv.1 == k')).isSome = true := by
        simp only [List.find?] at h
        rcases hfa : ((a, v).1 == k') with _ | _
        · rw [hfa] at h
          simpa using h
        · exact absurd hfa (by simpa using ha)
      simpa using ih htl

/-- Inserting a fresh bucket for a vacant key appends the pid to the
(empty) bucket of that key and leaves all others unchanged. -/
theorem bucketGetD_append_single (k k' pid : Nat) (m : List (Nat × List Nat))
    (h : m.find? (fun kv => kv.1 == k') = none) :
    bucketGetD (m ++ [(k', [pid])]) k
      = bucketGetD m k ++ (if k = k' then [pid] else []) := by
  induction m with
  | nil =>
    simp only [List.nil_append, bucketGetD_cons]
    by_cases hk : k = k'
    · simp [hk, bucketGetD, lookupB]
    · have : (k' == k) = false := by simp [Ne.symm hk]
      simp [this, hk, bucketGetD, lookupB]
  | cons hd tl ih =>
    rcases hd with ⟨a, v⟩
    have ha : (a == k') = false := by
      rcases hfa : (a == k') with _ | _
      · rfl
      · exfalso
        have h2 : ((a, v).1 == k') = true := by simpa using hfa
        simp [List.find?, h2] at h
    have htl : tl.find? (fun kv => kv.1 == k') = none := by
      simp only [List.find?] at h
      have h2 : ((a, v).1 == k') = false := by simpa using ha
      rw [h2] at h
      exact h
    rw [List.cons_append, bucketGetD_cons, bucketGetD_cons]
    by_cases hak : (a == k) = true
    · simp only [hak, if_pos]
      have hk : ¬ k = k' := by
        intro hkk
        have ha' : a = k := by simpa using hak
        rw [hkk] at ha'
        simp [ha'] at ha
      simp [hk]
    · simp only [hak]
      simpa using ih htl

/-- Combined specification of `bucketsInsert` on bucket contents. -/
theorem bucketGetD_bucketsInsert (m : List (Nat × List Nat)) (k k' pid : Nat) :
    bucketGetD (bucketsInsert m k' pid) k
      = bucketGetD m k ++ (if k = k' then [pid] else []) := by
  unfold bucketsInsert
  by_cases h : (m.find? (fun kv => kv.1 == k')).isSome = true
  · rw [if_pos h]
    by_cases hk : k = k'
    · subst hk
      rw [bucketGetD_map_eq k pid m h]
      simp
    · rw [bucketGetD_map_ne k k' pid m hk]
      simp [hk]
  · rw [if_neg h]
    apply bucketGetD_append_single
    rcases hf : m.find? (fun kv => kv.1 == k') with _ | x
    · exact hf
    · exact absurd (by simp [hf] : (m.find? (fun kv => kv.1 == k')).isSome = true) h

/-- Characterisation of the map-building fold: the bucket of key `k`
collects, in processing order, exactly the processed pids whose
recorded parent is `k`. -/
theorem build_ppid_map_fold (procs : List (Nat × Process)) :
    ∀ (l : List String) (m : List (Nat × List Nat)) (k : Nat),
      bucketGetD (l.foldl (ppidMapStep procs) m) k
        = bucketGetD m k
            ++ (l.filterMap (procFilter procs)).filter (fun c => parF procs c == k) := by
  intro l
  induction l with
  | nil => intro m k; simp
  | cons a rest ih =>
    intro m k
    simp only [List.foldl_cons, List.filterMap_cons]
    rcases hp : parseU32 a with _ | pid
    · have hstep : ppidMapStep procs m a = m := by simp [ppidMapStep, hp]
      have hfil : procFilter procs a = none := by simp [procFilter, hp]
      rw [hstep, hfil, ih]
    · rcases hl : lookupA procs pid with _ | v
      · have hstep : ppidMapStep procs m a = m := by simp [ppidMapStep, hp, hl]
        have hfil : procFilter procs a = none := by simp [procFilter, hp, hl]
        rw [hstep, hfil, ih]
      · have hstep : ppidMapStep procs m a = bucketsInsert m v.ppid pid := by
          simp [ppidMapStep, hp, hl]
        have hfil : procFilter procs a = some pid := by simp [procFilter, hp, hl]
        have hpar : parF procs pid = v.ppid := by simp [parF, hl]
        rw [hstep, hfil, ih, bucketGetD_bucketsInsert, List.filter_cons]
        by_cases hk : k = v.ppid
        · have hbeq : (parF procs pid == k) = true := by simp [hpar, hk]
          simp [hbeq, hk, hpar, List.append_assoc]
        · have hbeq : (parF procs pid == k) = false := by simp [hpar]; exact fun hh => hk hh.symm
          simp [hbeq, hk]

/-- Every bucket of the built multimap is the parent-filtered processed
pid list. -/
theorem bucketGetD_build_ppid_map (procs : List (Nat × Process)) (enum : List String) (k : Nat) :
    bucketGetD (build_ppid_map procs enum) k
      = (procList procs enum).filter (fun c => parF procs c == k) := by
  unfold build_ppid_map procList
  rw [build_ppid_map_fold]
  rfl



/-- A `filterMap` by a refining partial function is a sublist of the
`filterMap` by the refined one. -/
theorem filterMap_sublist_of_imp {α β : Type} (f g : α → Option β)
    (h : ∀ a b, g a = some b → f a = some b) :
    ∀ l : List α, List.Sublist (l.filterMap g) (l.filterMap f) := by
  intro l
  induction l with
  | nil => simp
  | cons a rest ih =>
    simp only [List.filterMap_cons]
    rcases hg : g a with _ | b
    · rcases hf : f a with _ | c
      · exact ih
      · exact ih.cons _
    · rw [h a b hg]
      exact ih.cons₂ _

/-- Unfolding of one step of the enumeration filter. -/
theorem procFilter_eq_some (procs : List (Nat × Process)) (s : String) (c : Nat) :
    procFilter procs s = some c ↔
      parseU32 s = some c ∧ (lookupA procs c).isSome = true := by
  unfold procFilter
  rcases hp : parseU32 s with _ | p
  · simp
  · show (if (lookupA procs p).isSome = true then some p else none) = some c ↔
        some p = some c ∧ (lookupA procs c).isSome = true
    by_cases hl : (lookupA procs p).isSome = true
    · rw [if_pos hl]
      constructor
      · rintro h
        cases h
        exact ⟨rfl, hl⟩
      · rintro ⟨h1, _⟩
        cases h1
        rfl
    · rw [if_neg hl]
      constructor
      · rintro h
        cases h
      · rintro ⟨h1, h2⟩
        cases h1
        exact absurd h2 hl

/-- Membership in the processed pid list: the pid parses from the
enumeration and is a key of the snapshot. -/
theorem mem_procList (procs : List (Nat × Process)) (enum : List String) (c : Nat) :
    c ∈ procList procs enum ↔
      c ∈ enum.filterMap parseU32 ∧ (lookupA procs c).isSome = true := by
  simp only [procList, List.mem_filterMap]
  constructor
  · rintro ⟨s, hs, hf⟩
    rcases (procFilter_eq_some procs s c).mp hf with ⟨h1, h2⟩
    exact ⟨⟨s, hs, h1⟩, h2⟩
  · rintro ⟨⟨s, hs, h1⟩, h2⟩
    exact ⟨s, hs, (procFilter_eq_some procs s c).mpr ⟨h1, h2⟩⟩

/-- The processed pid list is a sublist of the parsed enumeration. -/
theorem procList_sublist (procs : List (Nat × Process)) (enum : List String) :
    List.Sublist (procList procs enum) (enum.filterMap parseU32) := by
  apply filterMap_sublist_of_imp
  intro a b hg
  exact ((procFilter_eq_some procs a b).mp hg).1

/-- A pid found in the bucket of key `k` has recorded parent `k` and was
processed. -/
theorem bucket_mem (procs : List (Nat × Process)) (enum : List String) (k c : Nat)
    (h : c ∈ bucketGetD (build_ppid_map procs enum) k) :
    parF procs c = k ∧ c ∈ procList procs enum := by
  rw [bucketGetD_build_ppid_map] at h
  have h2 := List.mem_filter.mp h
  exact ⟨by simpa using h2.2, h2.1⟩

/-- With a duplicate-free parsed enumeration, every bucket is
duplicate-free. -/
theorem bucket_nodup (procs : List (Nat × Process)) (enum : List String)
    (hn : (enum.filterMap parseU32).Nodup) (k : Nat) :
    (bucketGetD (build_ppid_map procs enum) k).Nodup := by
  rw [bucketGetD_build_ppid_map]
  exact (hn.sublist (procList_sublist procs enum)).filter _

/-- The tree recursion never changes the process record of the node it
expands. -/
theorem relations_info (procs : List (Nat × Process)) (B : List (Nat × List Nat))
    (f : Nat) (n : ProcessTreeNode) :
    (build_process_tree_relations procs B f n).proc_info = n.proc_info := by
  cases f with
  | zero => rfl
  | succ f =>
    simp only [build_process_tree_relations]
    rcases h : lookupB B n.proc_info.pid with _ | cs
    · rfl
    · rfl

/-- One unfolding of the tree recursion on a fresh node: the children
are the bucket of the node's pid, each recursively expanded. -/
theorem relations_expand (procs : List (Nat × Process)) (B : List (Nat × List Nat))
    (f : Nat) (P : Process) :
    build_process_tree_relations procs B (f + 1) (ProcessTreeNode.mk P [])
      = ProcessTreeNode.mk P ((bucketGetD B P.pid).map (fun c =>
          build_process_tree_relations procs B f (childNode procs c))) := by
  simp only [build_process_tree_relations, ProcessTreeNode.proc_info, ProcessTreeNode.children]
  rcases h : lookupB B P.pid with _ | cs
  · have hb : bucketGetD B P.pid = [] := by simp [bucketGetD, h]
    simp only [hb, List.map_nil]
  · have hb : bucketGetD B P.pid = cs := by simp [bucketGetD, h]
    simp only [hb, List.nil_append]
    rfl

/-- Unfolding equation of `collectPids`. -/
theorem collectPids_mk (p : Process) (cs : List ProcessTreeNode) :
    collectPids (ProcessTreeNode.mk p cs) = p.pid :: collectPidsList cs := rfl

/-- Unfolding equation of `collectPidsList` (nil). -/
theorem collectPidsList_nil : collectPidsList [] = [] := rfl

/-- Unfolding equation of `collectPidsList` (cons). -/
theorem collectPidsList_cons (t : ProcessTreeNode) (ts : List ProcessTreeNode) :
    collectPidsList (t :: ts) = collectPids t ++ collectPidsList ts := rfl

/-- Membership in the pid collection of a forest. -/
theorem mem_collectPidsList (x : Nat) :
    ∀ (l : List ProcessTreeNode), x ∈ collectPidsList l ↔ ∃ t ∈ l, x ∈ collectPids t := by
  intro l
  induction l with
  | nil => simp [collectPidsList_nil]
  | cons t ts ih => simp [collectPidsList_cons, ih]



/-- The materialised child node is a fresh node holding the snapshot
entry of its pid. -/
theorem childNode_eq (procs : List (Nat × Process)) (c : Nat) :
    childNode procs c = ProcessTreeNode.mk ((lookupA procs c).getD Process.new) [] := rfl

/-- Every pid in an expanded subtree is linked to the subtree's root pid
by a chain of recorded-parent steps whose intermediate stops are all
processed pids. -/
theorem subtree_chain (procs : List (Nat × Process)) (B : List (Nat × List Nat)) (E : List Nat)
    (hb : ∀ k c, c ∈ bucketGetD B k → parF procs c = k ∧ c ∈ E)
    (hpid : ∀ c ∈ E, ((lookupA procs c).getD Process.new).pid = c) :
    ∀ (f : Nat) (P : Process) (x : Nat),
      x ∈ collectPids (build_process_tree_relations procs B f (ProcessTreeNode.mk P [])) →
      ∃ j, (parF procs)^[j] x = P.pid ∧ ∀ i, i < j → (parF procs)^[i] x ∈ E := by
  intro f
  induction f with
  | zero =>
    intro P x hx
    simp only [build_process_tree_relations, collectPids_mk, collectPidsList_nil] at hx
    rcases List.mem_singleton.mp hx with rfl
    exact ⟨0, rfl, fun i hi => absurd hi (Nat.not_lt_zero i)⟩
  | succ f ih =>
    intro P x hx
    rw [relations_expand, collectPids_mk] at hx
    rcases List.mem_cons.mp hx with rfl | hx
    · exact ⟨0, rfl, fun i hi => absurd hi (Nat.not_lt_zero i)⟩
    · rcases (mem_collectPidsList x _).mp hx with ⟨t, ht, hxt⟩
      rcases List.mem_map.mp ht with ⟨c, hc, rfl⟩
      obtain ⟨hpar, hcE⟩ := hb _ _ hc
      have hQ : ((lookupA procs c).getD Process.new).pid = c := hpid c hcE
      rw [childNode_eq] at hxt
      rcases ih ((lookupA procs c).getD Process.new) x hxt with ⟨j, hj, hint⟩
      rw [hQ] at hj
      refine ⟨j + 1, ?_, ?_⟩
      · rw [Function.iterate_succ_apply', hj, hpar]
      · intro i hi
        rcases Nat.lt_succ_iff_lt_or_eq.mp hi with hi | rfl
        · exact hint i hi
        · rw [hj]; exact hcE

/-- A parent chain from `p` down to the terminal 0 makes 0 an iterate of
the parent function at `p`. -/
theorem chain_iterate (g : Nat → Nat) :
    ∀ (seen : List Nat) (p : Nat), List.Chain' (fun a b => g a = b) (p :: seen) →
      (p :: seen).getLast? = some 0 → g^[seen.length] p = 0 := by
  intro seen
  induction seen with
  | nil =>
    intro p hch hlast
    simpa using hlast
  | cons q rest ih =>
    intro p hch hlast
    rw [List.chain'_cons] at hch
    have h2 := ih q hch.2 (by rw [← hlast]; exact (List.getLast?_cons_cons).symm)
    rw [List.length_cons, Function.iterate_succ_apply, hch.1]
    exact h2

/-- Every non-terminal member of a parent chain has its parent inside
the chain's tail. -/
theorem chain_succ_mem (g : Nat → Nat) :
    ∀ (seen : List Nat) (p c z : Nat), List.Chain' (fun a b => g a = b) (p :: seen) →
      (p :: seen).getLast? = some z → c ∈ seen → c ≠ z → ∃ d ∈ seen, g c = d := by
  intro seen
  induction seen with
  | nil => intro p c z _ _ hc; cases hc
  | cons q rest ih =>
    intro p c z hch hlast hc hne
    rw [List.chain'_cons] at hch
    rcases List.mem_cons.mp hc with rfl | hc
    · cases rest with
      | nil =>
        simp at hlast
        exact absurd hlast hne
      | cons r rest' =>
        have hgr : g c = r := (List.chain'_cons.mp hch.2).1
        exact ⟨r, by simp, hgr⟩
    · have hlast' : (q :: rest).getLast? = some z := by
        rw [← hlast]; exact (List.getLast?_cons_cons).symm
      rcases ih q c z hch.2 hlast' hc hne with ⟨d, hd, hgd⟩
      exact ⟨d, List.mem_cons_of_mem _ hd, hgd⟩

/-- If `p` lies on a cycle of the parent function and 0 is an iterate of
`p`, then 0 already occurs within the first cycle period. -/
theorem iterate_cycle_mem (g : Nat → Nat) (p : Nat) (k n : Nat) (hk : 0 < k)
    (hcyc : g^[k] p = p) (h0 : g^[n] p = 0) : ∃ r, r < k ∧ g^[r] p = 0 := by
  refine ⟨n % k, Nat.mod_lt _ hk, ?_⟩
  have hfix : (g^[k])^[n / k] p = p := Function.iterate_fixed hcyc (n / k)
  rw [← Nat.mod_add_div n k, Function.iterate_add_apply, Function.iterate_mul, hfix] at h0
  exact h0



/-- The pid collection of a forest is the flattening of the per-tree
collections. -/
theorem collectPidsList_eq_flatten :
    ∀ (l : List ProcessTreeNode), collectPidsList l = (l.map collectPids).flatten := by
  intro l
  induction l with
  | nil => rfl
  | cons t ts ih => simp [collectPidsList_cons, ih]

/-- Main invariant of the tree recursion: starting from a node whose pid
heads a duplicate-free recorded-parent chain down to the synthetic root
0, the expanded subtree repeats no pid and avoids every proper ancestor
on that chain.  The hypotheses hold for the multimap built from a
snapshot satisfying the key invariant and a duplicate-free live-pid
enumeration that does not list pid 0. -/
theorem subtree_nodup (procs : List (Nat × Process)) (B : List (Nat × List Nat)) (E : List Nat)
    (hb : ∀ k c, c ∈ bucketGetD B k → parF procs c = k ∧ c ∈ E)
    (hbn : ∀ k, (bucketGetD B k).Nodup)
    (hE0 : (0 : Nat) ∉ E)
    (hpid : ∀ c ∈ E, ((lookupA procs c).getD Process.new).pid = c) :
    ∀ (f : Nat) (P : Process) (seen : List Nat),
      List.Chain' (fun a b => parF procs a = b) (P.pid :: seen) →
      (P.pid :: seen).getLast? = some 0 →
      (P.pid :: seen).Nodup →
      (collectPids (build_process_tree_relations procs B f (ProcessTreeNode.mk P []))).Nodup
      ∧ ∀ x ∈ collectPids (build_process_tree_relations procs B f (ProcessTreeNode.mk P [])),
          x ∉ seen := by
  intro f
  induction f with
  | zero =>
    intro P seen hch hlast hnd
    constructor
    · simp [build_process_tree_relations, collectPids_mk, collectPidsList_nil]
    · intro x hx
      simp only [build_process_tree_relations, collectPids_mk, collectPidsList_nil] at hx
      rcases List.mem_singleton.mp hx with rfl
      exact (List.nodup_cons.mp hnd).1
  | succ f ih =>
    intro P seen hch hlast hnd
    have hPseen : P.pid ∉ seen := (List.nodup_cons.mp hnd).1
    have hcnot : ∀ c, c ∈ bucketGetD B P.pid → c ∉ P.pid :: seen := by
      intro c hc hmem
      obtain ⟨hpar, hcE⟩ := hb _ _ hc
      have hc0 : c ≠ 0 := fun h => hE0 (h ▸ hcE)
      rcases List.mem_cons.mp hmem with rfl | hmem
      · cases seen with
        | nil =>
          have hz : P.pid = 0 := by simpa using hlast
          exact hc0 hz
        | cons s rest =>
          have hhead : parF procs P.pid = s := (List.chain'_cons.mp hch).1
          rw [hpar] at hhead
          apply hPseen
          rw [hhead]
          exact List.mem_cons_self s rest
      · rcases chain_succ_mem (parF procs) seen P.pid c 0 hch hlast hmem hc0 with ⟨d, hd, hgd⟩
        rw [hpar] at hgd
        apply hPseen
        rw [hgd]
        exact hd
    have hchild : ∀ c ∈ bucketGetD B P.pid,
        (collectPids (build_process_tree_relations procs B f (childNode procs c))).Nodup
        ∧ ∀ x ∈ collectPids (build_process_tree_relations procs B f (childNode procs c)),
            x ∉ P.pid :: seen := by
      intro c hc
      obtain ⟨hpar, hcE⟩ := hb _ _ hc
      have hQ : ((lookupA procs c).getD Process.new).pid = c := hpid c hcE
      rw [childNode_eq]
      have hch' : List.Chain' (fun a b => parF procs a = b)
          (((lookupA procs c).getD Process.new).pid :: P.pid :: seen) := by
        rw [hQ]
        exact List.chain'_cons.mpr ⟨hpar, hch⟩
      have hlast' : ((((lookupA procs c).getD Process.new).pid :: P.pid :: seen)).getLast?
          = some 0 := by
        rw [List.getLast?_cons_cons]
        exact hlast
      have hnd' : (((lookupA procs c).getD Process.new).pid :: P.pid :: seen).Nodup := by
        rw [hQ]
        exact List.nodup_cons.mpr ⟨hcnot c hc, hnd⟩
      exact ih ((lookupA procs c).getD Process.new) (P.pid :: seen) hch' hlast' hnd'
    have hcore : ∀ (c d : Nat), c ∈ bucketGetD B P.pid → d ∈ bucketGetD B P.pid →
        ∀ (x j1 j2 : Nat), (parF procs)^[j1] x = c → (parF procs)^[j2] x = d →
          (∀ i, i < j2 → (parF procs)^[i] x ∈ E) → j1 < j2 → False := by
      intro c d hc hd x j1 j2 hj1 hj2 hint2 hlt
      obtain ⟨hparc, hcE⟩ := hb _ _ hc
      obtain ⟨hpard, hdE⟩ := hb _ _ hd
      have hk0 : 0 < j2 - j1 := Nat.sub_pos_of_lt hlt
      have hstep : (parF procs)^[1 + j1] x = P.pid := by
        rw [Function.iterate_add_apply, hj1]
        simpa using hparc
      have hiter : ∀ i, (parF procs)^[i] P.pid = (parF procs)^[i + (1 + j1)] x := by
        intro i
        rw [Function.iterate_add_apply, hstep]
      have hCY : ∀ i, i < j2 - j1 → (parF procs)^[i] P.pid ∈ E := by
        intro i hi
        rw [hiter i]
        by_cases hlt2 : i + (1 + j1) < j2
        · exact hint2 _ hlt2
        · have heq : i + (1 + j1) = j2 := by omega
          rw [heq, hj2]
          exact hdE
      have hcyc : (parF procs)^[j2 - j1] P.pid = P.pid := by
        rw [hiter (j2 - j1)]
        have heq2 : j2 - j1 + (1 + j1) = 1 + j2 := by omega
        rw [heq2, Function.iterate_add_apply, hj2]
        simpa using hpard
      have h0 : (parF procs)^[seen.length] P.pid = 0 :=
        chain_iterate (parF procs) seen P.pid hch hlast
      rcases iterate_cycle_mem (parF procs) P.pid (j2 - j1) seen.length hk0 hcyc h0
        with ⟨r, hr, hr0⟩
      exact hE0 (hr0 ▸ hCY r hr)
    have hdisj : ∀ c ∈ bucketGetD B P.pid, ∀ d ∈ bucketGetD B P.pid, c ≠ d →
        ∀ x, x ∈ collectPids (build_process_tree_relations procs B f (childNode procs c)) →
          x ∈ collectPids (build_process_tree_relations procs B f (childNode procs d)) →
          False := by
      intro c hc d hd hcd x hxc hxd
      obtain ⟨hparc, hcE⟩ := hb _ _ hc
      obtain ⟨hpard, hdE⟩ := hb _ _ hd
      have hQc : ((lookupA procs c).getD Process.new).pid = c := hpid c hcE
      have hQd : ((lookupA procs d).getD Process.new).pid = d := hpid d hdE
      rw [childNode_eq] at hxc hxd
      rcases subtree_chain procs B E hb hpid f _ x hxc with ⟨j1, hj1, hint1⟩
      rcases subtree_chain procs B E hb hpid f _ x hxd with ⟨j2, hj2, hint2⟩
      rw [hQc] at hj1
      rw [hQd] at hj2
      rcases Nat.lt_trichotomy j1 j2 with hlt | heq | hlt
      · exact hcore c d hc hd x j1 j2 hj1 hj2 hint2 hlt
      · rw [heq] at hj1
        rw [hj2] at hj1
        exact hcd hj1.symm
      · exact hcore d c hd hc x j2 j1 hj2 hj1 hint1 hlt
    constructor
    · rw [relations_expand, collectPids_mk]
      apply List.nodup_cons.mpr
      constructor
      · intro hmem
        rcases (mem_collectPidsList _ _).mp hmem with ⟨t, ht, hxt⟩
        rcases List.mem_map.mp ht with ⟨c, hc, rfl⟩
        exact ((hchild c hc).2 _ hxt) (List.mem_cons_self _ _)
      · rw [collectPidsList_eq_flatten]
        apply List.nodup_flatten.mpr
        constructor
        · intro l hl
          rcases List.mem_map.mp hl with ⟨t, ht, rfl⟩
          rcases List.mem_map.mp ht with ⟨c, hc, rfl⟩
          exact (hchild c hc).1
        · rw [List.map_map]
          apply (List.pairwise_map).mpr
          apply (hbn P.pid).pairwise_of_forall_ne
          intro c hc d hd hcd
          intro x hxc hxd
          exact hdisj c hc d hd hcd x hxc hxd
    · intro x hx
      rw [relations_expand, collectPids_mk] at hx
      rcases List.mem_cons.mp hx with rfl | hx
      · exact hPseen
      · rcases (mem_collectPidsList _ _).mp hx with ⟨t, ht, hxt⟩
        rcases List.mem_map.mp ht with ⟨c, hc, rfl⟩
        intro hxseen
        exact ((hchild c hc).2 _ hxt) (List.mem_cons_of_mem _ hxseen)



/-- Unfolding equation of `edgesOk`. -/
theorem edgesOk_mk (p : Process) (cs : List ProcessTreeNode) :
    edgesOk (ProcessTreeNode.mk p cs) = edgesOkList p.pid cs := rfl

/-- Unfolding equation of `edgesOkList` (cons). -/
theorem edgesOkList_cons (pp : Nat) (t : ProcessTreeNode) (ts : List ProcessTreeNode) :
    edgesOkList pp (t :: ts)
      = ((t.proc_info.ppid == pp) && edgesOk t && edgesOkList pp ts) := rfl

/-- Unfolding equation of `edgesSnd`. -/
theorem edgesSnd_mk (p : Process) (cs : List ProcessTreeNode) :
    edgesSnd (ProcessTreeNode.mk p cs) = edgesSndList cs := rfl

/-- Unfolding equation of `edgesSndList` (nil). -/
theorem edgesSndList_nil : edgesSndList [] = [] := rfl

/-- Unfolding equation of `edgesSndList` (cons). -/
theorem edgesSndList_cons (t : ProcessTreeNode) (ts : List ProcessTreeNode) :
    edgesSndList (t :: ts) = t.proc_info.pid :: (edgesSnd t ++ edgesSndList ts) := rfl

/-- Every edge produced by the tree recursion links a parent to a child
whose recorded ppid is the parent's pid. -/
theorem subtree_edgesOk (procs : List (Nat × Process)) (B : List (Nat × List Nat))
    (hb : ∀ k c, c ∈ bucketGetD B k → parF procs c = k) :
    ∀ (f : Nat) (P : Process),
      edgesOk (build_process_tree_relations procs B f (ProcessTreeNode.mk P [])) = true := by
  intro f
  induction f with
  | zero => intro P; rfl
  | succ f ih =>
    intro P
    rw [relations_expand, edgesOk_mk]
    have inner : ∀ (l : List Nat), (∀ c ∈ l, c ∈ bucketGetD B P.pid) →
        edgesOkList P.pid (l.map (fun c =>
          build_process_tree_relations procs B f (childNode procs c))) = true := by
      intro l
      induction l with
      | nil => intro _; rfl
      | cons c rest ihl =>
        intro hsub
        rw [List.map_cons, edgesOkList_cons]
        have h1 : (build_process_tree_relations procs B f (childNode procs c)).proc_info
            = (lookupA procs c).getD Process.new := by
          rw [relations_info, childNode_eq]
          rfl
        have h2 : ((build_process_tree_relations procs B f (childNode procs c)).proc_info.ppid
            == P.pid) = true := by
          rw [h1]
          have hp := hb _ _ (hsub c (List.mem_cons_self c rest))
          simpa [parF] using hp
        have h3 : edgesOk (build_process_tree_relations procs B f (childNode procs c)) = true := by
          rw [childNode_eq]
          exact ih _
        rw [h2, h3, ihl (fun d hd => hsub d (List.mem_cons_of_mem _ hd))]
        rfl
    exact inner _ (fun c hc => hc)

/-- Every pid of an expanded subtree is the subtree's root pid or a
processed pid. -/
theorem subtree_subset (procs : List (Nat × Process)) (B : List (Nat × List Nat)) (E : List Nat)
    (hb : ∀ k c, c ∈ bucketGetD B k → parF procs c = k ∧ c ∈ E)
    (hpid : ∀ c ∈ E, ((lookupA procs c).getD Process.new).pid = c) :
    ∀ (f : Nat) (P : Process) (x : Nat),
      x ∈ collectPids (build_process_tree_relations procs B f (ProcessTreeNode.mk P [])) →
      x = P.pid ∨ x ∈ E := by
  intro f
  induction f with
  | zero =>
    intro P x hx
    simp only [build_process_tree_relations, collectPids_mk, collectPidsList_nil] at hx
    exact Or.inl (List.mem_singleton.mp hx)
  | succ f ih =>
    intro P x hx
    rw [relations_expand, collectPids_mk] at hx
    rcases List.mem_cons.mp hx with rfl | hx
    · exact Or.inl rfl
    · rcases (mem_collectPidsList _ _).mp hx with ⟨t, ht, hxt⟩
      rcases List.mem_map.mp ht with ⟨c, hc, rfl⟩
      obtain ⟨hpar, hcE⟩ := hb _ _ hc
      rw [childNode_eq] at hxt
      rcases ih _ x hxt with hx1 | hx2
      · rw [hpid c hcE] at hx1
        exact Or.inr (hx1 ▸ hcE)
      · exact Or.inr hx2

/-- The multiset of pids of a subtree equals its root pid plus the
child-end pids of its edges. -/
theorem count_collect_edges (procs : List (Nat × Process)) (B : List (Nat × List Nat)) :
    ∀ (f : Nat) (P : Process) (x : Nat),
      (collectPids (build_process_tree_relations procs B f (ProcessTreeNode.mk P []))).count x
        = (edgesSnd (build_process_tree_relations procs B f (ProcessTreeNode.mk P []))).count x
          + (if P.pid = x then 1 else 0) := by
  intro f
  induction f with
  | zero =>
    intro P x
    show ([P.pid] : List Nat).count x
        = (([] : List Nat).count x) + (if P.pid = x then 1 else 0)
    by_cases hx : P.pid = x <;> simp [hx, List.count_cons, List.count_nil]
  | succ f ih =>
    intro P x
    rw [relations_expand, collectPids_mk, edgesSnd_mk]
    have inner : ∀ (l : List Nat),
        (collectPidsList (l.map (fun c =>
            build_process_tree_relations procs B f (childNode procs c)))).count x
        = (edgesSndList (l.map (fun c =>
            build_process_tree_relations procs B f (childNode procs c)))).count x := by
      intro l
      induction l with
      | nil => rfl
      | cons c rest ihl =>
        rw [List.map_cons, collectPidsList_cons, edgesSndList_cons]
        rw [List.count_append, List.count_cons, List.count_append]
        have hpidgc : (build_process_tree_relations procs B f (childNode procs c)).proc_info.pid
            = ((lookupA procs c).getD Process.new).pid := by
          rw [relations_info, childNode_eq]
          rfl
        have htree := ih ((lookupA procs c).getD Process.new) x
        rw [← childNode_eq] at htree
        rw [htree, ihl, hpidgc]
        by_cases hx : ((lookupA procs c).getD Process.new).pid = x
        · simp [hx]
          try omega
        · simp [hx, Ne.symm hx]
          try omega
    rw [List.count_cons, inner]
    by_cases hx : P.pid = x
    · simp [hx]
      try omega
    · simp [hx, Ne.symm hx]
      try omega

/-- Under the key invariant, the record found for key `c` carries pid
`c`. -/
theorem keysMatch_lookup (procs : List (Nat × Process)) (hk : keysMatchB procs = true)
    (c : Nat) (v : Process) (h : lookupA procs c = some v) : v.pid = c := by
  unfold lookupA at h
  rcases hf : procs.find? (fun kv => kv.1 == c) with _ | kv
  · rw [hf] at h; cases h
  · rw [hf] at h
    simp only [Option.map_some'] at h
    cases h
    have hmem := List.mem_of_find?_eq_some hf
    have hpred := List.find?_some hf
    have hkv : kv.2.pid = kv.1 := by
      simp only [keysMatchB, List.all_eq_true, beq_iff_eq] at hk
      exact hk kv hmem
    rw [hkv]
    simpa using hpred



/-- C7: for every snapshot satisfying the pid-equals-key invariant and
every live-pid enumeration (duplicate-free at pid level, not listing
the synthetic root pid 0 — pid 0 never has a process-table entry), no
pid appears twice among the nodes of the built tree, and every node is
the child end of at most one edge (at most one parent). -/
theorem C7_tree_no_duplicate_pids (s : System) (enum : List String)
    (hkeys : keysMatchB s.procs = true)
    (hnodup : (enum.filterMap parseU32).Nodup)
    (h0 : (0 : Nat) ∉ enum.filterMap parseU32) :
    (collectPids (build_process_tree s enum).root).Nodup
    ∧ ∀ c, ((edgesSnd (build_process_tree s enum).root).count c) ≤ 1 := by
  have hb : ∀ k c, c ∈ bucketGetD (build_ppid_map s.procs enum) k →
      parF s.procs c = k ∧ c ∈ procList s.procs enum :=
    fun k c h => bucket_mem _ _ _ _ h
  have hbn : ∀ k, (bucketGetD (build_ppid_map s.procs enum) k).Nodup :=
    bucket_nodup _ _ hnodup
  have hE0 : (0 : Nat) ∉ procList s.procs enum := by
    intro h
    exact h0 ((mem_procList _ _ _).mp h).1
  have hpid : ∀ c ∈ procList s.procs enum,
      ((lookupA s.procs c).getD Process.new).pid = c := by
    intro c hc
    rcases Option.isSome_iff_exists.mp ((mem_procList _ _ _).mp hc).2 with ⟨v, hv⟩
    simp only [hv, Option.getD_some]
    exact keysMatch_lookup s.procs hkeys c v hv
  have hroot : (build_process_tree s enum).root
      = build_process_tree_relations s.procs (build_ppid_map s.procs enum)
          (bucketsSize (build_ppid_map s.procs enum) + 1)
          (ProcessTreeNode.mk rootProcess []) := rfl
  have hmain := subtree_nodup s.procs (build_ppid_map s.procs enum) (procList s.procs enum)
      hb hbn hE0 hpid (bucketsSize (build_ppid_map s.procs enum) + 1) rootProcess []
      (List.chain'_singleton _) (by simp [rootProcess]) (List.nodup_singleton _)
  constructor
  · rw [hroot]
    exact hmain.1
  · intro c
    rw [hroot]
    have hcnt := count_collect_edges s.procs (build_ppid_map s.procs enum)
      (bucketsSize (build_ppid_map s.procs enum) + 1) rootProcess c
    have hle : (collectPids (build_process_tree_relations s.procs (build_ppid_map s.procs enum)
        (bucketsSize (build_ppid_map s.procs enum) + 1)
        (ProcessTreeNode.mk rootProcess []))).count c ≤ 1 :=
      List.nodup_iff_count_le_one.mp hmain.1 c
    omega

/-- C7 witness: the theorem applied to the concrete example snapshot. -/
theorem C7_tree_no_duplicate_pids_witness :
    (collectPids (build_process_tree sys4 enum4).root).Nodup
    ∧ ((edgesSnd (build_process_tree sys4 enum4).root).count 2) ≤ 1 := by
  have h := C7_tree_no_duplicate_pids sys4 enum4 (by decide) (by decide) (by decide)
  exact ⟨h.1, h.2 2⟩

/-- C6: in every built tree each non-root node's recorded ppid equals
its parent node's pid; only pids present in both the snapshot and the
live-pid enumeration appear (beyond the synthetic root 0), assuming the
snapshot's pid-equals-key invariant; and on the spec's concrete example
the root has exactly one child (pid 1) with exactly two children (pids
2 and 3), and the orphan pid 4 (parent 99 absent) is dropped. -/
theorem C6_tree_structure :
    (∀ (s : System) (enum : List String),
        edgesOk (build_process_tree s enum).root = true)
    ∧ (∀ (s : System) (enum : List String), keysMatchB s.procs = true →
        ∀ c, c ∈ collectPids (build_process_tree s enum).root → c ≠ 0 →
          c ∈ enum.filterMap parseU32 ∧ (lookupA s.procs c).isSome = true)
    ∧ ((build_process_tree sys4 enum4).root.children.map
          (fun n => n.proc_info.pid) = [1]
      ∧ (build_process_tree sys4 enum4).root.children.map
          (fun n => n.children.map (fun m => m.proc_info.pid)) = [[2, 3]]
      ∧ collectPids (build_process_tree sys4 enum4).root = [0, 1, 2, 3]
      ∧ (4 : Nat) ∉ collectPids (build_process_tree sys4 enum4).root) := by
  refine ⟨?_, ?_, by decide, by decide, by decide, by decide⟩
  · intro s enum
    have hroot : (build_process_tree s enum).root
        = build_process_tree_relations s.procs (build_ppid_map s.procs enum)
            (bucketsSize (build_ppid_map s.procs enum) + 1)
            (ProcessTreeNode.mk rootProcess []) := rfl
    rw [hroot]
    exact subtree_edgesOk s.procs (build_ppid_map s.procs enum)
      (fun k c h => (bucket_mem _ _ _ _ h).1) _ _
  · intro s enum hkeys c hc hc0
    have hb : ∀ k c, c ∈ bucketGetD (build_ppid_map s.procs enum) k →
        parF s.procs c = k ∧ c ∈ procList s.procs enum :=
      fun k c h => bucket_mem _ _ _ _ h
    have hpid : ∀ c ∈ procList s.procs enum,
        ((lookupA s.procs c).getD Process.new).pid = c := by
      intro c hcc
      rcases Option.isSome_iff_exists.mp ((mem_procList _ _ _).mp hcc).2 with ⟨v, hv⟩
      simp only [hv, Option.getD_some]
      exact keysMatch_lookup s.procs hkeys c v hv
    have hroot : (build_process_tree s enum).root
        = build_process_tree_relations s.procs (build_ppid_map s.procs enum)
            (bucketsSize (build_ppid_map s.procs enum) + 1)
            (ProcessTreeNode.mk rootProcess []) := rfl
    rw [hroot] at hc
    rcases subtree_subset s.procs (build_ppid_map s.procs enum) (procList s.procs enum)
        hb hpid _ rootProcess c hc with h1 | h2
    · exact absurd h1 hc0
    · exact (mem_procList _ _ _).mp h2

/-- C6 witness: the membership conjunct applied to the concrete example
snapshot at pid 2. -/
theorem C6_tree_structure_witness :
    (2 : Nat) ∈ enum4.filterMap parseU32 ∧ (lookupA sys4.procs 2).isSome = true :=
  C6_tree_structure.2.1 sys4 enum4 (by decide) 2 (by decide) (by decide)

end ForgeView
